import Mathlib

set_option maxHeartbeats 1000000

/-!
Shallow embedding of the xk6-imap client (files `client/client.go` and
`imap.go`).  Go strings are modelled as Lean `String`, Go byte/character
operations over `String.data`; Go `time.Time` values are modelled as
`Option Int` (epoch seconds, `none` for the zero time, so `IsZero` is
`= none` and `t.After(u)` is `u < t`); Go maps are modelled as
association lists in insertion order (Go map iteration order is
unspecified, no claim depends on it).  The remote IMAP server is
modelled as an environment of typed responses, one per protocol call,
mirroring the transport capability of the design.
-/

/-- Character class trimmed by Go `strings.TrimSpace` restricted to the
ASCII whitespace characters relevant here. -/
def isSpaceChar (c : Char) : Bool :=
  (c == ' ') || (c == '\t') || (c == '\n') || (c == '\r')

/-- Models Go `strings.TrimSpace`. -/
def trimSpace (s : String) : String :=
  String.mk (((s.data.dropWhile isSpaceChar).reverse.dropWhile isSpaceChar).reverse)

/-- ASCII lowercasing of one character, as Go `unicode.ToLower` acts on the
ASCII range used by header names. -/
def lowerChar (c : Char) : Char :=
  if 65 ≤ c.toNat ∧ c.toNat ≤ 90 then Char.ofNat (c.toNat + 32) else c

/-- Models Go `strings.ToLower` on ASCII input. -/
def strToLower (s : String) : String :=
  String.mk (s.data.map lowerChar)

/-- Character class of Go `strings.TrimRight(line, "\r\n")`. -/
def isCRLFChar (c : Char) : Bool :=
  (c == '\r') || (c == '\n')

/-- Models Go `strings.TrimRight(line, "\r\n")`. -/
def trimRightCRLF (s : String) : String :=
  String.mk ((s.data.reverse.dropWhile isCRLFChar).reverse)

/-- Models Go `strings.HasPrefix`. -/
def startsWithGo (s p : String) : Bool :=
  p.data.isPrefixOf s.data

/-- Models Go `strings.Contains(line, ":")`. -/
def containsColon (s : String) : Bool :=
  s.data.contains ':'

/-- Split at the first colon: models Go `strings.SplitN(line, ":", 2)`.
The first component is the text before the first colon; the second is
`some rest` when a colon occurs (the second of the two parts), else `none`
(the split produced a single part). -/
def splitOnceAtColon : List Char → List Char × Option (List Char)
  | [] => ([], none)
  | c :: rest =>
    if c = ':' then ([], some rest)
    else
      let r := splitOnceAtColon rest
      (c :: r.1, r.2)

/-- Models Go `strings.Split(s, "\r\n")` at the character level. -/
def splitCRLF : List Char → List (List Char)
  | [] => [[]]
  | '\r' :: '\n' :: rest => [] :: splitCRLF rest
  | c :: rest =>
    match splitCRLF rest with
    | [] => [[c]]
    | l :: ls => (c :: l) :: ls

/-- The CRLF-separated lines of a string, as `String`s. -/
def splitLinesCRLF (s : String) : List String :=
  (splitCRLF s.data).map String.mk

/-- Appends a suffix to the last element of a list of strings, modelling the
Go in-place update `currentValues[len(currentValues)-1] += suffix`. -/
def appendToLast : List String → String → List String
  | [], _ => []
  | [v], suf => [v ++ suf]
  | v :: rest, suf => v :: appendToLast rest suf

/-! ## CriteriaTranslator: convertJSObjectToMIMEHeader -/

/-- A JavaScript value as it reaches `convertJSObjectToMIMEHeader` through
the k6 bridge (`map[string]interface{}` values): a Go `string`, a Go
`[]interface{}` of arbitrary items, a Go `[]string`, or any other
dynamic type (the `default` of the Go type switch). -/
inductive JSVal where
  | str (s : String)
  | list (items : List JSVal)
  | strList (items : List String)
  | other

/-- The string elements of a `[]interface{}` value, in order: models the
inner loop of the `[]interface{}` case (the `item.(string)` assertions). -/
def stringItems (items : List JSVal) : List String :=
  items.filterMap (fun it =>
    match it with
    | JSVal.str s => some s
    | _ => none)

/-- The value list stored for one key by `convertJSObjectToMIMEHeader`, or
`none` when the key is not stored, following the Go type switch case by
case. -/
def convertValue : JSVal → Option (List String)
  | JSVal.list items =>
    let values := stringItems items
    if values.length > 0 then some values else none
  | JSVal.str s => some [s]
  | JSVal.strList items => some items
  | JSVal.other => none

/-- Models `convertJSObjectToMIMEHeader` (identical in `client/client.go`
and `imap.go`).  The input object is an association list with distinct
keys (a Go map); the output header keeps the kept keys in input order. -/
def convertJSObjectToMIMEHeader (obj : List (String × JSVal)) : List (String × List String) :=
  obj.filterMap (fun kv => (convertValue kv.2).map (fun vs => (kv.1, vs)))

/-! ## MessageDecoder: the raw header block parser inside messageToMap -/

/-- A value of the decoded `headers` map: Go stores either a `string` or a
`[]string` under each key. -/
inductive HVal where
  | str (s : String)
  | list (vs : List String)
deriving DecidableEq, Repr

/-- Association-list lookup, modelling Go `headers[currentKey]` read. -/
def hLookup : List (String × HVal) → String → Option HVal
  | [], _ => none
  | (k2, v2) :: rest, k => if k2 = k then some v2 else hLookup rest k

/-- Association-list store, modelling Go `headers[key] = v` (update the
existing entry in place, else append). -/
def hInsert : List (String × HVal) → String → HVal → List (String × HVal)
  | [], k, v => [(k, v)]
  | (k2, v2) :: rest, k, v =>
    if k2 = k then (k, v) :: rest else (k2, v2) :: hInsert rest k v

/-- The loop state of the header-parsing loop in `messageToMap`:
accumulated `headers` map, `currentKey` and `currentValues`. -/
structure HPState where
  headers : List (String × HVal)
  currentKey : String
  currentValues : List String
deriving DecidableEq, Repr

/-- The in-loop flush of the previous header (`Salva l'header precedente`):
merges with an existing entry — appending to an existing list, or turning
an existing scalar plus `currentValues[0]` into a two-element list — and
otherwise stores a scalar for a singleton value list.  A blank key is not
stored.  Go indexes `currentValues[0]`, reachable only with a non-empty
value list; `headD` mirrors that access. -/
def flushMerge (headers : List (String × HVal)) (key : String) (vals : List String) :
    List (String × HVal) :=
  if key = "" then headers
  else
    match hLookup headers key with
    | some (HVal.list xs) => hInsert headers key (HVal.list (xs ++ vals))
    | some (HVal.str s) => hInsert headers key (HVal.list [s, vals.headD ""])
    | none =>
      match vals with
      | [v] => hInsert headers key (HVal.str v)
      | _ => hInsert headers key (HVal.list vals)

/-- The after-loop flush of the last header (`Aggiungi l'ultimo header`):
unlike `flushMerge` it never consults an existing entry — it stores the
value unconditionally, overwriting any entry already present under the
key, exactly as the Go code after the loop does. -/
def storeNoMerge (headers : List (String × HVal)) (key : String) (vals : List String) :
    List (String × HVal) :=
  if key = "" then headers
  else
    match vals with
    | [v] => hInsert headers key (HVal.str v)
    | _ => hInsert headers key (HVal.list vals)

/-- One non-blank line of the header-parsing loop body of `messageToMap`:
a line starting with space or tab continues the previous value (appended
with one space after `TrimSpace`); else a line containing a colon flushes
the previous header and starts a new one with lowercased, trimmed name;
any other line is ignored. -/
def processHeaderLine (st : HPState) (line : String) : HPState :=
  if startsWithGo line " " || startsWithGo line "\t" then
    if st.currentKey ≠ "" ∧ st.currentValues ≠ [] then
      { st with currentValues := appendToLast st.currentValues (" " ++ trimSpace line) }
    else st
  else if containsColon line then
    match (splitOnceAtColon line.data).2 with
    | some rest =>
      { headers := flushMerge st.headers st.currentKey st.currentValues,
        currentKey := trimSpace (strToLower (String.mk (splitOnceAtColon line.data).1)),
        currentValues := [trimSpace (String.mk rest)] }
    | none =>
      { headers := flushMerge st.headers st.currentKey st.currentValues,
        currentKey := "", currentValues := [] }
  else st

/-- The header-parsing loop over the lines: each line is first trimmed of
trailing CR/LF; the loop breaks at the first blank line. -/
def processHeaderLines (st : HPState) : List String → HPState
  | [] => st
  | l :: ls =>
    if trimRightCRLF l = "" then st
    else processHeaderLines (processHeaderLine st (trimRightCRLF l)) ls

/-- The initial state of the header-parsing loop. -/
def initHPState : HPState := ⟨[], "", []⟩

/-- The complete header-block decoding of `messageToMap`: split the raw
header text on CRLF, run the loop, then flush the last header. -/
def parseHeaderBlock (text : String) : List (String × HVal) :=
  let fin := processHeaderLines initHPState (splitLinesCRLF text)
  storeNoMerge fin.headers fin.currentKey fin.currentValues

/-! ## MessageDecoder: messageToMap -/

/-- One `imap.Address` of the go-imap envelope: only the fields read by
`messageToMap`. -/
structure Address where
  MailboxName : String
  HostName : String
deriving DecidableEq, Repr

/-- The `imap.Envelope` fields read by `messageToMap`.  `Date` is `none`
when the Go `time.Time` is the zero value (`IsZero`), else the epoch
second. -/
structure Envelope where
  Subject : String
  From : List Address
  To : List Address
  Cc : List Address
  Bcc : List Address
  Date : Option Int
deriving DecidableEq, Repr

/-- One fetched `*imap.Message` as `messageToMap` consumes it:
the optional envelope, the internal date (`none` = zero time), the two
retrievable body sections (`none` = `GetBody` returns `nil`), and the
sequence number.  `Body` of the Go message is non-empty exactly when some
section literal is present. -/
structure ImapMessage where
  Envelope : Option Envelope
  InternalDate : Option Int
  BodyText : Option String
  BodyHeader : Option String
  SeqNum : Nat
deriving DecidableEq, Repr

/-- A value of the decoded k6-facing record.  `rfc3339 t` stands for the
Go `Format(time.RFC3339)` rendering of the instant `t` (epoch seconds);
`num` covers the `Unix()` timestamps and the sequence number. -/
inductive JVal where
  | str (s : String)
  | num (n : Int)
  | list (vs : List String)
  | obj (m : List (String × HVal))
  | rfc3339 (epoch : Int)
deriving DecidableEq, Repr

/-- Hexadecimal digit value, as the quoted-printable decoder reads escape
bytes. -/
def hexVal (c : Char) : Option Nat :=
  if 48 ≤ c.toNat ∧ c.toNat ≤ 57 then some (c.toNat - 48)
  else if 65 ≤ c.toNat ∧ c.toNat ≤ 70 then some (c.toNat - 65 + 10)
  else if 97 ≤ c.toNat ∧ c.toNat ≤ 102 then some (c.toNat - 97 + 10)
  else none

/-- Modelled from the external library `mime/quotedprintable` used by the
source: `=XY` hex escapes decode to one character, `=` before a line break
is a soft break, any other escape is a decode error (`none`), every other
character is literal.  Only its success/failure split matters to the
claims. -/
def decodeQPAux : List Char → Option (List Char)
  | [] => some []
  | c :: rest =>
    if c = '=' then
      match rest with
      | '\n' :: rest2 => decodeQPAux rest2
      | '\r' :: '\n' :: rest2 => decodeQPAux rest2
      | c1 :: c2 :: rest2 =>
        match hexVal c1, hexVal c2 with
        | some h1, some h2 => (decodeQPAux rest2).map (fun t => Char.ofNat (16 * h1 + h2) :: t)
        | _, _ => none
      | _ => none
    else (decodeQPAux rest).map (fun t => c :: t)

/-- Quoted-printable decoding of a whole section, `none` on a read error
(the `ioutil.ReadAll(quotedprintable.NewReader(r))` error). -/
def decodeQP (s : String) : Option String :=
  (decodeQPAux s.data).map String.mk

/-- One address formatted by the envelope loops of `messageToMap`:
`mailbox@host` when both parts are non-empty, the bare mailbox when only
it is non-empty, nothing otherwise. -/
def formatAddr (a : Address) : Option String :=
  if a.MailboxName ≠ "" ∧ a.HostName ≠ "" then some (a.MailboxName ++ "@" ++ a.HostName)
  else if a.MailboxName ≠ "" then some a.MailboxName
  else none

/-- The formatted strings of an address list, in order (the `fromAddrs` /
`toAddrs` / `ccAddrs` / `bccAddrs` accumulation loops). -/
def addrStrings (addrs : List Address) : List String :=
  addrs.filterMap formatAddr

/-- The `subject` entry (always present when the envelope is). -/
def subjectFields (env : Envelope) : List (String × JVal) :=
  [("subject", JVal.str env.Subject)]

/-- The `from` entry: emitted whenever the envelope from-list is non-empty;
a bare string when exactly one formatted address results, else the list
(possibly empty). -/
def fromFields (env : Envelope) : List (String × JVal) :=
  if env.From.length > 0 then
    match addrStrings env.From with
    | [x] => [("from", JVal.str x)]
    | xs => [("from", JVal.list xs)]
  else []

/-- The `to` entry. -/
def toFields (env : Envelope) : List (String × JVal) :=
  if env.To.length > 0 then [("to", JVal.list (addrStrings env.To))] else []

/-- The `cc` entry. -/
def ccFields (env : Envelope) : List (String × JVal) :=
  if env.Cc.length > 0 then [("cc", JVal.list (addrStrings env.Cc))] else []

/-- The `bcc` entry. -/
def bccFields (env : Envelope) : List (String × JVal) :=
  if env.Bcc.length > 0 then [("bcc", JVal.list (addrStrings env.Bcc))] else []

/-- The sender-date pair, suppressed together for a zero date. -/
def dateFields (env : Envelope) : List (String × JVal) :=
  match env.Date with
  | some d => [("date", JVal.rfc3339 d), ("dateTimestamp", JVal.num d)]
  | none => []

/-- All envelope-sourced entries, in the order the Go code inserts them. -/
def envelopeFields (env : Envelope) : List (String × JVal) :=
  subjectFields env ++ fromFields env ++ toFields env ++ ccFields env ++
    bccFields env ++ dateFields env

/-- The internal-date pair, suppressed together for a zero date. -/
def internalDateFields (msg : ImapMessage) : List (String × JVal) :=
  match msg.InternalDate with
  | some d => [("internalDate", JVal.rfc3339 d), ("internalDateTimestamp", JVal.num d)]
  | none => []

/-- The `body` entry: present only when the text section is retrievable and
quoted-printable decoding succeeds. -/
def bodyFields (msg : ImapMessage) : List (String × JVal) :=
  match msg.BodyText with
  | none => []
  | some raw =>
    match decodeQP raw with
    | some s => [("body", JVal.str s)]
    | none => []

/-- The `headers` entry: attempted only when the message carries some body
section (`len(msg.Body) > 0`), present only when the header section is
retrievable and at least one header was decoded. -/
def headersFields (msg : ImapMessage) : List (String × JVal) :=
  if msg.BodyText.isSome || msg.BodyHeader.isSome then
    match msg.BodyHeader with
    | none => []
    | some h =>
      if (parseHeaderBlock h).length > 0 then [("headers", JVal.obj (parseHeaderBlock h))]
      else []
  else []

/-- The record built by `messageToMap`, field group by field group in the
source's insertion order, ending with the `uid` entry. -/
def messageToMapFields (msg : ImapMessage) : List (String × JVal) :=
  (match msg.Envelope with
   | some env => envelopeFields env
   | none => []) ++
  internalDateFields msg ++ bodyFields msg ++ headersFields msg ++
  [("uid", JVal.num (Int.ofNat msg.SeqNum))]

/-- Models `messageToMap`: the function ends in `return result, nil`, so
the error component is the `nil` of the source. -/
def messageToMap (msg : ImapMessage) : List (String × JVal) × Option String :=
  (messageToMapFields msg, none)

/-! ## One-shot Read -/

/-- The server responses consumed by one `Read` call: the outcome of the
read-only INBOX select, of the search, and of the fetch of the highest
returned id (`nil` message modelled as `Option`). -/
structure ReadEnv where
  selectRes : Except String Unit
  searchRes : Except String (List Nat)
  fetchRes : Except String (Option ImapMessage)

/-- Models `EmailClient.Read`: returns the decoded record or a non-empty
error string, mirroring each early return of the source in order. -/
def ReadEmail (connected : Bool) (env : ReadEnv) :
    Option (List (String × JVal)) × String :=
  if connected = false then (none, "Client not connected. Call login() first.")
  else
    match env.selectRes with
    | Except.error e => (none, e)
    | Except.ok _ =>
      match env.searchRes with
      | Except.error e => (none, e)
      | Except.ok ids =>
        if ids.length = 0 then (none, "No messages found")
        else
          match env.fetchRes with
          | Except.error e => (none, e)
          | Except.ok none => (none, "No message")
          | Except.ok (some msg) =>
            let (emailMap, decodeErr) := messageToMap msg
            match decodeErr with
            | some e => (none, e)
            | none => (some emailMap, "")

/-! ## PurgeByAge: DeleteEmailsOlderThan -/

/-- One protocol call issued by `DeleteEmailsOlderThan`, recorded for the
call trace. -/
inductive ImapCall where
  | select (mailbox : String) (readOnly : Bool)
  | search
  | store (ids : List Nat)
  | expunge
deriving DecidableEq, Repr

/-- The server responses consumed by one `DeleteEmailsOlderThan` call. -/
structure PurgeEnv where
  selectRes : Except String Unit
  searchRes : Except String (List Nat)
  storeRes : Except String Unit
  expungeRes : Except String Unit

/-- Models `DeleteEmailsOlderThan`: the returned `(count, error-string)`
pair together with the trace of protocol calls issued, in order.  The
mailbox is selected read-write (`readOnly = false`); the search carries
the `Before` cutoff (the search responses of the environment are the
server's answer to it). -/
def DeleteEmailsOlderThan (connected : Bool) (env : PurgeEnv) :
    (Nat × String) × List ImapCall :=
  if connected = false then ((0, "client not connected. Call login() first"), [])
  else
    match env.selectRes with
    | Except.error e => ((0, "error selecting INBOX: " ++ e), [ImapCall.select "INBOX" false])
    | Except.ok _ =>
      match env.searchRes with
      | Except.error e =>
        ((0, "error searching emails: " ++ e), [ImapCall.select "INBOX" false, ImapCall.search])
      | Except.ok ids =>
        if ids.length = 0 then
          ((0, ""), [ImapCall.select "INBOX" false, ImapCall.search])
        else
          match env.storeRes with
          | Except.error e =>
            ((0, "error marking emails as deleted: " ++ e),
             [ImapCall.select "INBOX" false, ImapCall.search, ImapCall.store ids])
          | Except.ok _ =>
            match env.expungeRes with
            | Except.error e =>
              ((0, "error expunging emails: " ++ e),
               [ImapCall.select "INBOX" false, ImapCall.search, ImapCall.store ids,
                ImapCall.expunge])
            | Except.ok _ =>
              ((ids.length, ""),
               [ImapCall.select "INBOX" false, ImapCall.search, ImapCall.store ids,
                ImapCall.expunge])

/-! ## NewMessageWatcher: WaitNewEmail -/

/-- One protocol call issued by an iteration of the watcher loop. -/
inductive WCall where
  | select
  | search
  | fetch (id : Nat)
deriving DecidableEq, Repr

/-- The server as seen by the watcher: per-iteration responses to select,
search and fetch (the fetch of that iteration's highest id), plus the
session start time (epoch seconds; the search `Since` bound is this start
minus one second, which the environment's search responses already
honour). -/
structure WatchEnv where
  startTime : Int
  selectRes : Nat → Except String Unit
  searchRes : Nat → Except String (List Nat)
  fetchRes : Nat → Except String (Option ImapMessage)

/-- The watcher loop state at the top of an iteration: elapsed
milliseconds since the session started, the iteration counter, and the
skipped-id set (`skippedIDs`). -/
structure WatchState where
  elapsedMs : Nat
  iteration : Nat
  skipped : List Nat
deriving DecidableEq, Repr

/-- The terminal outcome of a watch: promise resolution with the decoded
record, or rejection with an error string; each carries the elapsed
milliseconds at which it happened. -/
inductive WatchOutcome where
  | resolved (record : List (String × JVal)) (elapsedMs : Nat)
  | rejected (err : String) (elapsedMs : Nat)
deriving DecidableEq, Repr

/-- The rejection message of the timeout branch, carrying the configured
duration. -/
def timeoutMsg (timeoutMs : Nat) : String :=
  "Timeout: no new email found within " ++ toString timeoutMs ++ " ms"

/-- The fixed poll interval of the watcher (2 seconds). -/
def pollIntervalMs : Nat := 2000

/-- The state after `time.Sleep(pollInterval)` and the `continue`: elapsed
time advances by the poll interval, the iteration counter by one, and the
skipped set becomes the given one.  Network calls are modelled as
instantaneous, so elapsed time grows only by sleeping. -/
def sleepAdvance (st : WatchState) (skipped : List Nat) : WatchState :=
  { elapsedMs := st.elapsedMs + pollIntervalMs,
    iteration := st.iteration + 1,
    skipped := skipped }

/-- One iteration of the `WaitNewEmail` polling loop, from the timeout
guard at the top through either a terminal outcome (`Sum.inl`) or the
sleep into the next iteration (`Sum.inr`), together with the protocol
calls issued.  Branches follow the source in order: timeout guard,
select (fatal), search (fatal), empty result, skipped-id short-circuit,
fetch (soft failure), nil message, missing internal date, stale internal
date, and resolution through `messageToMap`. -/
def watchStep (env : WatchEnv) (timeoutMs : Nat) (st : WatchState) :
    (WatchOutcome ⊕ WatchState) × List WCall :=
  if timeoutMs ≤ st.elapsedMs then
    (Sum.inl (WatchOutcome.rejected (timeoutMsg timeoutMs) st.elapsedMs), [])
  else
    match env.selectRes st.iteration with
    | Except.error e => (Sum.inl (WatchOutcome.rejected e st.elapsedMs), [WCall.select])
    | Except.ok _ =>
      match env.searchRes st.iteration with
      | Except.error e =>
        (Sum.inl (WatchOutcome.rejected e st.elapsedMs), [WCall.select, WCall.search])
      | Except.ok ids =>
        match ids.getLast? with
        | none => (Sum.inr (sleepAdvance st st.skipped), [WCall.select, WCall.search])
        | some latestID =>
          if latestID ∈ st.skipped then
            (Sum.inr (sleepAdvance st st.skipped), [WCall.select, WCall.search])
          else
            match env.fetchRes st.iteration with
            | Except.error _ =>
              (Sum.inr (sleepAdvance st st.skipped),
               [WCall.select, WCall.search, WCall.fetch latestID])
            | Except.ok none =>
              (Sum.inr (sleepAdvance st (latestID :: st.skipped)),
               [WCall.select, WCall.search, WCall.fetch latestID])
            | Except.ok (some msg) =>
              match msg.InternalDate with
              | none =>
                (Sum.inr (sleepAdvance st (latestID :: st.skipped)),
                 [WCall.select, WCall.search, WCall.fetch latestID])
              | some d =>
                if env.startTime < d then
                  let (emailMap, decodeErr) := messageToMap msg
                  match decodeErr with
                  | some e =>
                    (Sum.inl (WatchOutcome.rejected e st.elapsedMs),
                     [WCall.select, WCall.search, WCall.fetch latestID])
                  | none =>
                    (Sum.inl (WatchOutcome.resolved emailMap st.elapsedMs),
                     [WCall.select, WCall.search, WCall.fetch latestID])
                else
                  (Sum.inr (sleepAdvance st (latestID :: st.skipped)),
                   [WCall.select, WCall.search, WCall.fetch latestID])

/-- The watcher loop run for at most `fuel` iterations: the outcome when
one is reached (`none` when the fuel runs out first) and the concatenated
call trace. -/
def watchRun (env : WatchEnv) (timeoutMs : Nat) :
    Nat → WatchState → Option WatchOutcome × List WCall
  | 0, _ => (none, [])
  | fuel + 1, st =>
    match watchStep env timeoutMs st with
    | (Sum.inl out, tr) => (some out, tr)
    | (Sum.inr st2, tr) =>
      let r := watchRun env timeoutMs fuel st2
      (r.1, tr ++ r.2)

/-- The state at the top of the first iteration: zero elapsed time,
iteration counter 1, empty skipped set. -/
def initWatchState : WatchState := ⟨0, 1, []⟩

/-- The number of fetch calls in a trace. -/
def countFetch (tr : List WCall) : Nat :=
  (tr.filter (fun c =>
    match c with
    | WCall.fetch _ => true
    | _ => false)).length

/-! ## Helper lemmas -/

lemma startsWithGo_append_right (s t p : String) (h : startsWithGo s p = true) :
    startsWithGo (s ++ t) p = true := by
  simp only [startsWithGo, String.data_append, List.isPrefixOf_iff_prefix] at h ⊢
  exact h.trans (List.prefix_append _ _)

lemma startsWithGo_append_right_false (s t p : String)
    (hlen : p.data.length ≤ s.data.length)
    (h : startsWithGo s p = false) : startsWithGo (s ++ t) p = false := by
  rw [Bool.eq_false_iff] at h ⊢
  intro hT
  apply h
  simp only [startsWithGo, String.data_append, List.isPrefixOf_iff_prefix] at hT ⊢
  rw [List.prefix_iff_eq_take] at hT ⊢
  rwa [List.take_append_of_le_length hlen] at hT

/-! ## Claims about PurgeByAge -/

/-- C4: on a connected client, a purge whose search returns zero ids
returns count 0 with no error and issues no store or expunge call; when
the search returns n > 0 ids and the store and expunge succeed, it
issues store then expunge exactly once each, in that order, and returns
the count of marked ids. -/
theorem deleteEmailsOlderThan_counts_and_calls (env : PurgeEnv) (ids : List Nat)
    (hsel : env.selectRes = Except.ok ())
    (hsearch : env.searchRes = Except.ok ids) :
    (ids = [] → DeleteEmailsOlderThan true env =
      ((0, ""), [ImapCall.select "INBOX" false, ImapCall.search])) ∧
    (ids ≠ [] → env.storeRes = Except.ok () → env.expungeRes = Except.ok () →
      DeleteEmailsOlderThan true env =
        ((ids.length, ""),
         [ImapCall.select "INBOX" false, ImapCall.search, ImapCall.store ids,
          ImapCall.expunge])) := by
  constructor
  · intro h
    subst h
    simp [DeleteEmailsOlderThan, hsel, hsearch]
  · intro h hst hexp
    simp [DeleteEmailsOlderThan, hsel, hsearch, hst, hexp, List.length_eq_zero, h]

theorem deleteEmailsOlderThan_counts_and_calls_witness :
    DeleteEmailsOlderThan true
        ⟨Except.ok (), Except.ok [5, 7], Except.ok (), Except.ok ()⟩ =
      ((2, ""),
       [ImapCall.select "INBOX" false, ImapCall.search, ImapCall.store [5, 7],
        ImapCall.expunge]) :=
  (deleteEmailsOlderThan_counts_and_calls
      ⟨Except.ok (), Except.ok [5, 7], Except.ok (), Except.ok ()⟩ [5, 7] rfl rfl).2
    (by decide) rfl rfl

/-- C5: when the store (mark) step of a purge fails, expunge is never
invoked and the returned error names the mark phase, distinguishable by
its prefix from search-phase and expunge-phase errors. -/
theorem deleteEmailsOlderThan_store_failure_no_expunge (env : PurgeEnv)
    (ids : List Nat) (e : String)
    (hsel : env.selectRes = Except.ok ())
    (hsearch : env.searchRes = Except.ok ids)
    (hne : ids ≠ [])
    (hstore : env.storeRes = Except.error e) :
    DeleteEmailsOlderThan true env =
      ((0, "error marking emails as deleted: " ++ e),
       [ImapCall.select "INBOX" false, ImapCall.search, ImapCall.store ids]) ∧
    ImapCall.expunge ∉ (DeleteEmailsOlderThan true env).2 ∧
    startsWithGo (DeleteEmailsOlderThan true env).1.2
      "error marking emails as deleted: " = true ∧
    startsWithGo (DeleteEmailsOlderThan true env).1.2
      "error searching emails: " = false ∧
    startsWithGo (DeleteEmailsOlderThan true env).1.2
      "error expunging emails: " = false := by
  have heq : DeleteEmailsOlderThan true env =
      ((0, "error marking emails as deleted: " ++ e),
       [ImapCall.select "INBOX" false, ImapCall.search, ImapCall.store ids]) := by
    simp [DeleteEmailsOlderThan, hsel, hsearch, hstore, List.length_eq_zero, hne]
  refine ⟨heq, ?_, ?_, ?_, ?_⟩
  · rw [heq]
    simp
  · rw [heq]
    exact startsWithGo_append_right _ _ _ (by decide)
  · rw [heq]
    exact startsWithGo_append_right_false _ _ _ (by decide) (by decide)
  · rw [heq]
    exact startsWithGo_append_right_false _ _ _ (by decide) (by decide)

theorem deleteEmailsOlderThan_store_failure_no_expunge_witness :
    DeleteEmailsOlderThan true
        ⟨Except.ok (), Except.ok [5, 7], Except.error "boom", Except.ok ()⟩ =
      ((0, "error marking emails as deleted: " ++ "boom"),
       [ImapCall.select "INBOX" false, ImapCall.search, ImapCall.store [5, 7]]) ∧
    ImapCall.expunge ∉
      (DeleteEmailsOlderThan true
        ⟨Except.ok (), Except.ok [5, 7], Except.error "boom", Except.ok ()⟩).2 :=
  ⟨(deleteEmailsOlderThan_store_failure_no_expunge
      ⟨Except.ok (), Except.ok [5, 7], Except.error "boom", Except.ok ()⟩ [5, 7] "boom"
      rfl rfl (by decide) rfl).1,
   (deleteEmailsOlderThan_store_failure_no_expunge
      ⟨Except.ok (), Except.ok [5, 7], Except.error "boom", Except.ok ()⟩ [5, 7] "boom"
      rfl rfl (by decide) rfl).2.1⟩

/-! ## Claims about the header-block decoder -/

/-- C7 (code bug): two occurrences of the same header name do fold into a
two-element list in encounter order when a later distinct header follows
them, but when the repeated name belongs to the last header of the block
the after-loop flush stores without merging, overwriting the accumulated
entry: only the second value survives, as a scalar. -/
theorem parseHeaderBlock_last_repeat_overwrites :
    parseHeaderBlock "X-Test: a\r\nX-Test: b\r\n\r\n" = [("x-test", HVal.str "b")] ∧
    parseHeaderBlock "X-Test: a\r\nX-Test: b\r\nOther: c\r\n\r\n" =
      [("x-test", HVal.list ["a", "b"]), ("other", HVal.str "c")] :=
  ⟨by decide, by decide⟩

/-! ## Claims about the criteria translator -/

/-- C6 counterexample: a key whose value is an empty Go `[]string` has no
string elements, yet it is emitted with an empty value list instead of
being dropped, so not every output value list is non-empty. -/
theorem convertJSObject_empty_strList_counterexample :
    ("x", ([] : List String)) ∈ convertJSObjectToMIMEHeader [("x", JSVal.strList [])] := by
  decide

lemma convertJSObject_mem_provenance (obj : List (String × JSVal)) (k : String)
    (vs : List String) (h : (k, vs) ∈ convertJSObjectToMIMEHeader obj) :
    ∃ v, (k, v) ∈ obj ∧ convertValue v = some vs := by
  simp only [convertJSObjectToMIMEHeader, List.mem_filterMap] at h
  rcases h with ⟨⟨k2, v⟩, hmem, hconv⟩
  cases hc : convertValue v with
  | none => rw [hc] at hconv; simp at hconv
  | some ws =>
    rw [hc] at hconv
    simp only [Option.map_some', Option.some.injEq, Prod.mk.injEq] at hconv
    obtain ⟨hk, hvs⟩ := hconv
    subst hk
    exact ⟨v, hmem, by rw [hc, hvs]⟩

/-- C6 (amended): scalar strings convert to one-element lists;
`[]interface{}` values keep exactly their string elements in input order
(a sublist of the items) and a key is dropped when none survives; values
of other dynamic types are silently ignored; every output entry comes
from its key's input value; every empty output value list stems from an
explicit empty `[]string` input value — so output lists originating from
scalars or `[]interface{}` values are always non-empty; and a key none
of whose values converts is absent from the output. -/
theorem convertJSObject_normalization_amended :
    (∀ s, convertValue (JSVal.str s) = some [s]) ∧
    (∀ items, stringItems items = [] → convertValue (JSVal.list items) = none) ∧
    (∀ items, stringItems items ≠ [] →
      convertValue (JSVal.list items) = some (stringItems items)) ∧
    (∀ items, List.Sublist ((stringItems items).map JSVal.str) items) ∧
    (∀ items s, s ∈ stringItems items ↔ JSVal.str s ∈ items) ∧
    (convertValue JSVal.other = none) ∧
    (∀ obj k vs, (k, vs) ∈ convertJSObjectToMIMEHeader obj →
      ∃ v, (k, v) ∈ obj ∧ convertValue v = some vs) ∧
    (∀ obj k vs, (k, vs) ∈ convertJSObjectToMIMEHeader obj → vs = [] →
      (k, JSVal.strList []) ∈ obj) ∧
    (∀ obj k, (∀ v, (k, v) ∈ obj → convertValue v = none) →
      ∀ vs, (k, vs) ∉ convertJSObjectToMIMEHeader obj) := by
  refine ⟨fun s => rfl, ?_, ?_, ?_, ?_, rfl, convertJSObject_mem_provenance, ?_, ?_⟩
  · intro items h
    simp [convertValue, h]
  · intro items h
    simp only [convertValue]
    rw [if_pos (List.length_pos.mpr h)]
  · intro items
    induction items with
    | nil => simp [stringItems]
    | cons a t ih =>
      cases a with
      | str s => exact List.Sublist.cons₂ _ ih
      | list its => exact List.Sublist.cons _ ih
      | strList its => exact List.Sublist.cons _ ih
      | other => exact List.Sublist.cons _ ih
  · intro items s
    constructor
    · intro h
      simp only [stringItems, List.mem_filterMap] at h
      rcases h with ⟨a, ha, hfa⟩
      cases a <;> simp_all
    · intro h
      exact List.mem_filterMap.mpr ⟨JSVal.str s, h, rfl⟩
  · intro obj k vs h hvs
    subst hvs
    rcases convertJSObject_mem_provenance obj k [] h with ⟨v, hmem, hconv⟩
    cases v with
    | str s => simp [convertValue] at hconv
    | list its =>
      simp only [convertValue] at hconv
      split at hconv
      · rename_i hpos
        rw [Option.some.injEq] at hconv
        rw [hconv] at hpos
        simp at hpos
      · exact absurd hconv (by simp)
    | strList its =>
      simp only [convertValue, Option.some.injEq] at hconv
      rw [← hconv]
      exact hmem
    | other => simp [convertValue] at hconv
  · intro obj k hall vs hmem
    rcases convertJSObject_mem_provenance obj k vs hmem with ⟨v, hv, hconv⟩
    rw [hall v hv] at hconv
    exact Option.noConfusion hconv

theorem convertJSObject_normalization_amended_witness :
    convertValue (JSVal.str "v") = some ["v"] ∧
    convertValue (JSVal.list [JSVal.other]) = none ∧
    convertValue (JSVal.list [JSVal.str "a", JSVal.other, JSVal.str "b"]) =
      some ["a", "b"] ∧
    (∀ vs, ("k", vs) ∉ convertJSObjectToMIMEHeader [("k", JSVal.other)]) :=
  ⟨convertJSObject_normalization_amended.1 "v",
   convertJSObject_normalization_amended.2.1 [JSVal.other] (by decide),
   convertJSObject_normalization_amended.2.2.1 [JSVal.str "a", JSVal.other, JSVal.str "b"]
     (by decide),
   convertJSObject_normalization_amended.2.2.2.2.2.2.2.2 [("k", JSVal.other)] "k"
     (fun v hv => by
        simp only [List.mem_singleton, Prod.mk.injEq] at hv
        rw [hv.2]
        rfl)⟩

/-! ## Claims about the envelope address formatting -/

lemma subjectFields_key (env : Envelope) (k : String) (v : JVal)
    (h : (k, v) ∈ subjectFields env) : k = "subject" := by
  simp only [subjectFields, List.mem_singleton, Prod.mk.injEq] at h
  exact h.1

lemma fromFields_key (env : Envelope) (k : String) (v : JVal)
    (h : (k, v) ∈ fromFields env) : k = "from" := by
  unfold fromFields at h
  split at h
  · split at h <;> simp_all
  · simp at h

lemma toFields_key (env : Envelope) (k : String) (v : JVal)
    (h : (k, v) ∈ toFields env) : k = "to" := by
  unfold toFields at h
  split at h <;> simp_all

lemma ccFields_key (env : Envelope) (k : String) (v : JVal)
    (h : (k, v) ∈ ccFields env) : k = "cc" := by
  unfold ccFields at h
  split at h <;> simp_all

lemma bccFields_key (env : Envelope) (k : String) (v : JVal)
    (h : (k, v) ∈ bccFields env) : k = "bcc" := by
  unfold bccFields at h
  split at h <;> simp_all

lemma dateFields_key (env : Envelope) (k : String) (v : JVal)
    (h : (k, v) ∈ dateFields env) : k = "date" ∨ k = "dateTimestamp" := by
  unfold dateFields at h
  split at h <;> simp_all <;> tauto

lemma internalDateFields_key (msg : ImapMessage) (k : String) (v : JVal)
    (h : (k, v) ∈ internalDateFields msg) : k = "internalDate" ∨ k = "internalDateTimestamp" := by
  unfold internalDateFields at h
  split at h <;> simp_all <;> tauto

lemma bodyFields_key (msg : ImapMessage) (k : String) (v : JVal)
    (h : (k, v) ∈ bodyFields msg) : k = "body" := by
  unfold bodyFields at h
  split at h
  · simp at h
  · split at h <;> simp_all

lemma headersFields_key (msg : ImapMessage) (k : String) (v : JVal)
    (h : (k, v) ∈ headersFields msg) : k = "headers" := by
  unfold headersFields at h
  split at h
  · split at h
    · simp at h
    · split at h <;> simp_all
  · simp at h

lemma from_mem_fromFields (msg : ImapMessage) (env : Envelope) (v : JVal)
    (henv : msg.Envelope = some env)
    (h : ("from", v) ∈ (messageToMap msg).1) : ("from", v) ∈ fromFields env := by
  simp only [messageToMap, messageToMapFields, henv, envelopeFields,
    List.mem_append] at h
  rcases h with ((((((((hx | hx) | hx) | hx) | hx) | hx) | hx) | hx) | hx) | hx
  · exact absurd (subjectFields_key env _ _ hx) (by decide)
  · exact hx
  · exact absurd (toFields_key env _ _ hx) (by decide)
  · exact absurd (ccFields_key env _ _ hx) (by decide)
  · exact absurd (bccFields_key env _ _ hx) (by decide)
  · rcases dateFields_key env _ _ hx with h2 | h2 <;> exact absurd h2 (by decide)
  · rcases internalDateFields_key msg _ _ hx with h2 | h2 <;> exact absurd h2 (by decide)
  · exact absurd (bodyFields_key msg _ _ hx) (by decide)
  · exact absurd (headersFields_key msg _ _ hx) (by decide)
  · simp only [List.mem_singleton, Prod.mk.injEq] at hx
    exact absurd hx.1 (by decide)

lemma fromFields_mem_record (msg : ImapMessage) (env : Envelope) (v : JVal)
    (henv : msg.Envelope = some env) (hf : ("from", v) ∈ fromFields env) :
    ("from", v) ∈ (messageToMap msg).1 := by
  simp only [messageToMap, messageToMapFields, henv, envelopeFields, List.mem_append]
  exact Or.inl (Or.inl (Or.inl (Or.inl (Or.inl (Or.inl (Or.inl (Or.inl (Or.inr hf))))))))

/-- C8 counterexample: with an envelope whose from-list holds one address
with an empty mailbox name, no address is formatted, yet the `from` key is
emitted with an empty list — it is not omitted from the record. -/
theorem messageToMap_from_empty_list_counterexample :
    ("from", JVal.list []) ∈
      (messageToMap ⟨some ⟨"s", [⟨"", "h"⟩], [], [], [], none⟩, none, none, none, 1⟩).1 := by
  decide

/-- C8 (amended): each from-address formats as mailbox@host when both
parts are non-empty, as the bare mailbox when only the mailbox part is
non-empty, and contributes nothing otherwise; when the envelope is
present and its from-list non-empty, the from field is a bare string for
exactly one formatted address and the list of formatted addresses for
zero or several — the zero case being emitted as an empty list rather
than omitted; the from key is absent exactly when the envelope from-list
itself is empty. -/
theorem messageToMap_from_field_amended :
    (∀ a : Address, a.MailboxName ≠ "" → a.HostName ≠ "" →
      formatAddr a = some (a.MailboxName ++ "@" ++ a.HostName)) ∧
    (∀ a : Address, a.MailboxName ≠ "" → a.HostName = "" →
      formatAddr a = some a.MailboxName) ∧
    (∀ a : Address, a.MailboxName = "" → formatAddr a = none) ∧
    (∀ msg env, msg.Envelope = some env → env.From ≠ [] →
      ∀ x, addrStrings env.From = [x] →
        ("from", JVal.str x) ∈ (messageToMap msg).1) ∧
    (∀ msg env, msg.Envelope = some env → env.From ≠ [] →
      (addrStrings env.From = [] ∨ 2 ≤ (addrStrings env.From).length) →
      ("from", JVal.list (addrStrings env.From)) ∈ (messageToMap msg).1) ∧
    (∀ msg env, msg.Envelope = some env → env.From = [] →
      ∀ v, ("from", v) ∉ (messageToMap msg).1) := by
  refine ⟨?_, ?_, ?_, ?_, ?_, ?_⟩
  · intro a h1 h2
    simp [formatAddr, h1, h2]
  · intro a h1 h2
    simp [formatAddr, h1, h2]
  · intro a h1
    simp [formatAddr, h1]
  · intro msg env henv hne x hx
    apply fromFields_mem_record msg env _ henv
    unfold fromFields
    rw [if_pos (List.length_pos.mpr hne), hx]
    exact List.mem_singleton_self _
  · intro msg env henv hne hcase
    apply fromFields_mem_record msg env _ henv
    unfold fromFields
    rw [if_pos (List.length_pos.mpr hne)]
    rcases hl : addrStrings env.From with _ | ⟨x, _ | ⟨y, t⟩⟩
    · exact List.mem_singleton_self _
    · rw [hl] at hcase
      rcases hcase with h2 | h2 <;> simp at h2
    · exact List.mem_singleton_self _
  · intro msg env henv hFrom v hmem
    have hf := from_mem_fromFields msg env v henv hmem
    unfold fromFields at hf
    rw [hFrom] at hf
    simp at hf

theorem messageToMap_from_field_amended_witness :
    formatAddr ⟨"a", "b"⟩ = some ("a" ++ "@" ++ "b") ∧
    ("from", JVal.str "a@b") ∈
      (messageToMap ⟨some ⟨"s", [⟨"a", "b"⟩], [], [], [], none⟩, none, none, none, 1⟩).1 :=
  ⟨messageToMap_from_field_amended.1 ⟨"a", "b"⟩ (by decide) (by decide),
   messageToMap_from_field_amended.2.2.2.1
     ⟨some ⟨"s", [⟨"a", "b"⟩], [], [], [], none⟩, none, none, none, 1⟩
     ⟨"s", [⟨"a", "b"⟩], [], [], [], none⟩ rfl (by decide) "a@b" (by decide)⟩

/-! ## Claims about header continuation folding and key casing -/

lemma hInsert_mem (l : List (String × HVal)) (k : String) (v : HVal)
    (k2 : String) (v2 : HVal) (h : (k2, v2) ∈ hInsert l k v) :
    (k2, v2) ∈ l ∨ k2 = k := by
  induction l with
  | nil =>
    simp only [hInsert, List.mem_singleton, Prod.mk.injEq] at h
    exact Or.inr h.1
  | cons hd t ih =>
    obtain ⟨a, b⟩ := hd
    simp only [hInsert] at h
    split at h
    · rcases List.mem_cons.mp h with h2 | h2
      · exact Or.inr (congrArg Prod.fst h2)
      · exact Or.inl (List.mem_cons_of_mem _ h2)
    · rcases List.mem_cons.mp h with h2 | h2
      · exact Or.inl (h2 ▸ List.mem_cons_self _ _)
      · rcases ih h2 with h3 | h3
        · exact Or.inl (List.mem_cons_of_mem _ h3)
        · exact Or.inr h3

lemma flushMerge_mem (headers : List (String × HVal)) (key : String)
    (vals : List String) (k : String) (v : HVal)
    (h : (k, v) ∈ flushMerge headers key vals) :
    (∃ v2, (k, v2) ∈ headers) ∨ (k = key ∧ key ≠ "") := by
  unfold flushMerge at h
  split at h
  · exact Or.inl ⟨v, h⟩
  · rename_i hkey
    split at h
    · rcases hInsert_mem _ _ _ _ _ h with h2 | h2
      · exact Or.inl ⟨v, h2⟩
      · exact Or.inr ⟨h2, hkey⟩
    · rcases hInsert_mem _ _ _ _ _ h with h2 | h2
      · exact Or.inl ⟨v, h2⟩
      · exact Or.inr ⟨h2, hkey⟩
    · split at h
      · rcases hInsert_mem _ _ _ _ _ h with h2 | h2
        · exact Or.inl ⟨v, h2⟩
        · exact Or.inr ⟨h2, hkey⟩
      · rcases hInsert_mem _ _ _ _ _ h with h2 | h2
        · exact Or.inl ⟨v, h2⟩
        · exact Or.inr ⟨h2, hkey⟩

lemma storeNoMerge_mem (headers : List (String × HVal)) (key : String)
    (vals : List String) (k : String) (v : HVal)
    (h : (k, v) ∈ storeNoMerge headers key vals) :
    (∃ v2, (k, v2) ∈ headers) ∨ (k = key ∧ key ≠ "") := by
  unfold storeNoMerge at h
  split at h
  · exact Or.inl ⟨v, h⟩
  · rename_i hkey
    split at h
    · rcases hInsert_mem _ _ _ _ _ h with h2 | h2
      · exact Or.inl ⟨v, h2⟩
      · exact Or.inr ⟨h2, hkey⟩
    · rcases hInsert_mem _ _ _ _ _ h with h2 | h2
      · exact Or.inl ⟨v, h2⟩
      · exact Or.inr ⟨h2, hkey⟩

/-- A key produced by the colon branch: the trimmed, lowercased form of
some raw header name. -/
def loweredKey (k : String) : Prop :=
  ∃ s, k = trimSpace (strToLower s)

/-- Invariant of the header-parsing loop: every stored key, and the
current key when non-blank, is a trimmed lowercased header name. -/
def HPInv (st : HPState) : Prop :=
  (∀ k v, (k, v) ∈ st.headers → loweredKey k) ∧
    (st.currentKey ≠ "" → loweredKey st.currentKey)

lemma processHeaderLine_inv (st : HPState) (line : String) (h : HPInv st) :
    HPInv (processHeaderLine st line) := by
  unfold processHeaderLine
  split
  · split
    · exact ⟨h.1, h.2⟩
    · exact h
  · split
    · split
      · refine ⟨?_, ?_⟩
        · intro k v hm
          rcases flushMerge_mem _ _ _ _ _ hm with ⟨v2, h2⟩ | ⟨h2, h3⟩
          · exact h.1 k v2 h2
          · rw [h2]
            exact h.2 h3
        · intro _
          exact ⟨_, rfl⟩
      · refine ⟨?_, ?_⟩
        · intro k v hm
          rcases flushMerge_mem _ _ _ _ _ hm with ⟨v2, h2⟩ | ⟨h2, h3⟩
          · exact h.1 k v2 h2
          · rw [h2]
            exact h.2 h3
        · intro hk
          exact absurd rfl hk
    · exact h

lemma processHeaderLines_inv (lines : List String) :
    ∀ st : HPState, HPInv st → HPInv (processHeaderLines st lines) := by
  induction lines with
  | nil => exact fun st h => h
  | cons l ls ih =>
    intro st h
    simp only [processHeaderLines]
    split
    · exact h
    · exact ih _ (processHeaderLine_inv _ _ h)

lemma parseHeaderBlock_keys (text : String) (k : String) (v : HVal)
    (h : (k, v) ∈ parseHeaderBlock text) : loweredKey k := by
  simp only [parseHeaderBlock] at h
  have hinv := processHeaderLines_inv (splitLinesCRLF text) initHPState
    ⟨fun k2 v2 h2 => absurd h2 (List.not_mem_nil _),
     fun h2 => absurd rfl h2⟩
  rcases storeNoMerge_mem _ _ _ _ _ h with ⟨v2, h2⟩ | ⟨h2, h3⟩
  · exact hinv.1 _ _ h2
  · rw [h2]
    exact hinv.2 h3

/-- C9: a continuation line (leading space or tab, with a header open)
extends the running value by exactly one inserted space followed by the
trimmed continuation text; parsing stops at the first blank line (later
lines never affect the state); every key of the decoded map is a trimmed
lowercased header name; and a folded Subject decodes to the single
unfolded concatenation with the internal whitespace collapsed to one
space at the fold point. -/
theorem header_continuation_folding :
    (∀ st line, (startsWithGo line " " || startsWithGo line "\t") = true →
      st.currentKey ≠ "" → st.currentValues ≠ [] →
      processHeaderLine st line =
        { st with currentValues := appendToLast st.currentValues (" " ++ trimSpace line) }) ∧
    (∀ st pre l0 rest, trimRightCRLF l0 = "" →
      (∀ l ∈ pre, trimRightCRLF l ≠ "") →
      processHeaderLines st (pre ++ l0 :: rest) = processHeaderLines st pre) ∧
    (∀ text k v, (k, v) ∈ parseHeaderBlock text →
      ∃ s, k = trimSpace (strToLower s)) ∧
    parseHeaderBlock "Subject: Hello\r\n   World  \r\n\r\nBody" =
      [("subject", HVal.str "Hello World")] := by
  refine ⟨?_, ?_, parseHeaderBlock_keys, by decide⟩
  · intro st line h h1 h2
    rw [processHeaderLine, if_pos h, if_pos ⟨h1, h2⟩]
  · intro st pre
    induction pre generalizing st with
    | nil =>
      intro l0 rest h0 _
      simp [processHeaderLines, h0]
    | cons l ls ih =>
      intro l0 rest h0 hpre
      have hl : trimRightCRLF l ≠ "" := hpre l (List.mem_cons_self _ _)
      simp only [List.cons_append, processHeaderLines]
      rw [if_neg hl, if_neg hl]
      exact ih _ l0 rest h0 (fun x hx => hpre x (List.mem_cons_of_mem _ hx))

theorem header_continuation_folding_witness :
    processHeaderLine ⟨[], "subject", ["Hello"]⟩ "   World  " =
      ⟨[], "subject", ["Hello World"]⟩ ∧
    processHeaderLines initHPState (["A: b"] ++ "" :: ["junk"]) =
      processHeaderLines initHPState ["A: b"] :=
  ⟨(header_continuation_folding.1 ⟨[], "subject", ["Hello"]⟩ "   World  "
      (by decide) (by decide) (by decide)).trans (by decide),
   header_continuation_folding.2.1 initHPState ["A: b"] "" ["junk"] (by decide)
     (fun l hl => by
        simp only [List.mem_singleton] at hl
        rw [hl]
        decide)⟩

/-! ## Watcher step characterization lemmas -/

lemma watchStep_timeout (env : WatchEnv) (T : Nat) (st : WatchState)
    (h : T ≤ st.elapsedMs) :
    watchStep env T st =
      (Sum.inl (WatchOutcome.rejected (timeoutMsg T) st.elapsedMs), []) := by
  rw [watchStep, if_pos h]

lemma watchStep_selectErr (env : WatchEnv) (T : Nat) (st : WatchState) (e : String)
    (hlt : st.elapsedMs < T)
    (hsel : env.selectRes st.iteration = Except.error e) :
    watchStep env T st =
      (Sum.inl (WatchOutcome.rejected e st.elapsedMs), [WCall.select]) := by
  simp only [watchStep, if_neg (Nat.not_le.mpr hlt), hsel]

lemma watchStep_searchErr (env : WatchEnv) (T : Nat) (st : WatchState) (e : String)
    (hlt : st.elapsedMs < T)
    (hsel : env.selectRes st.iteration = Except.ok ())
    (hse : env.searchRes st.iteration = Except.error e) :
    watchStep env T st =
      (Sum.inl (WatchOutcome.rejected e st.elapsedMs), [WCall.select, WCall.search]) := by
  simp only [watchStep, if_neg (Nat.not_le.mpr hlt), hsel, hse]

lemma watchStep_emptyIds (env : WatchEnv) (T : Nat) (st : WatchState) (ids : List Nat)
    (hlt : st.elapsedMs < T)
    (hsel : env.selectRes st.iteration = Except.ok ())
    (hse : env.searchRes st.iteration = Except.ok ids)
    (hlast : ids.getLast? = none) :
    watchStep env T st =
      (Sum.inr (sleepAdvance st st.skipped), [WCall.select, WCall.search]) := by
  simp only [watchStep, if_neg (Nat.not_le.mpr hlt), hsel, hse, hlast]

lemma watchStep_skip (env : WatchEnv) (T : Nat) (st : WatchState) (ids : List Nat)
    (id : Nat)
    (hlt : st.elapsedMs < T)
    (hsel : env.selectRes st.iteration = Except.ok ())
    (hse : env.searchRes st.iteration = Except.ok ids)
    (hlast : ids.getLast? = some id)
    (hskip : id ∈ st.skipped) :
    watchStep env T st =
      (Sum.inr (sleepAdvance st st.skipped), [WCall.select, WCall.search]) := by
  simp only [watchStep, if_neg (Nat.not_le.mpr hlt), hsel, hse, hlast, if_pos hskip]

lemma watchStep_fetchErr (env : WatchEnv) (T : Nat) (st : WatchState) (ids : List Nat)
    (id : Nat) (e : String)
    (hlt : st.elapsedMs < T)
    (hsel : env.selectRes st.iteration = Except.ok ())
    (hse : env.searchRes st.iteration = Except.ok ids)
    (hlast : ids.getLast? = some id)
    (hskip : id ∉ st.skipped)
    (hf : env.fetchRes st.iteration = Except.error e) :
    watchStep env T st =
      (Sum.inr (sleepAdvance st st.skipped),
       [WCall.select, WCall.search, WCall.fetch id]) := by
  simp only [watchStep, if_neg (Nat.not_le.mpr hlt), hsel, hse, hlast,
    if_neg hskip, hf]

lemma watchStep_nilMsg (env : WatchEnv) (T : Nat) (st : WatchState) (ids : List Nat)
    (id : Nat)
    (hlt : st.elapsedMs < T)
    (hsel : env.selectRes st.iteration = Except.ok ())
    (hse : env.searchRes st.iteration = Except.ok ids)
    (hlast : ids.getLast? = some id)
    (hskip : id ∉ st.skipped)
    (hf : env.fetchRes st.iteration = Except.ok none) :
    watchStep env T st =
      (Sum.inr (sleepAdvance st (id :: st.skipped)),
       [WCall.select, WCall.search, WCall.fetch id]) := by
  simp only [watchStep, if_neg (Nat.not_le.mpr hlt), hsel, hse, hlast,
    if_neg hskip, hf]

lemma watchStep_noDate (env : WatchEnv) (T : Nat) (st : WatchState) (ids : List Nat)
    (id : Nat) (msg : ImapMessage)
    (hlt : st.elapsedMs < T)
    (hsel : env.selectRes st.iteration = Except.ok ())
    (hse : env.searchRes st.iteration = Except.ok ids)
    (hlast : ids.getLast? = some id)
    (hskip : id ∉ st.skipped)
    (hf : env.fetchRes st.iteration = Except.ok (some msg))
    (hd : msg.InternalDate = none) :
    watchStep env T st =
      (Sum.inr (sleepAdvance st (id :: st.skipped)),
       [WCall.select, WCall.search, WCall.fetch id]) := by
  simp only [watchStep, if_neg (Nat.not_le.mpr hlt), hsel, hse, hlast,
    if_neg hskip, hf, hd]

lemma watchStep_stale (env : WatchEnv) (T : Nat) (st : WatchState) (ids : List Nat)
    (id : Nat) (msg : ImapMessage) (d : Int)
    (hlt : st.elapsedMs < T)
    (hsel : env.selectRes st.iteration = Except.ok ())
    (hse : env.searchRes st.iteration = Except.ok ids)
    (hlast : ids.getLast? = some id)
    (hskip : id ∉ st.skipped)
    (hf : env.fetchRes st.iteration = Except.ok (some msg))
    (hd : msg.InternalDate = some d)
    (hdate : ¬ env.startTime < d) :
    watchStep env T st =
      (Sum.inr (sleepAdvance st (id :: st.skipped)),
       [WCall.select, WCall.search, WCall.fetch id]) := by
  simp only [watchStep, if_neg (Nat.not_le.mpr hlt), hsel, hse, hlast,
    if_neg hskip, hf, hd, if_neg hdate]

lemma watchStep_fresh (env : WatchEnv) (T : Nat) (st : WatchState)
    (ids : List Nat) (id : Nat) (msg : ImapMessage) (d : Int)
    (hlt : st.elapsedMs < T)
    (hsel : env.selectRes st.iteration = Except.ok ())
    (hse : env.searchRes st.iteration = Except.ok ids)
    (hlast : ids.getLast? = some id)
    (hskip : id ∉ st.skipped)
    (hf : env.fetchRes st.iteration = Except.ok (some msg))
    (hd : msg.InternalDate = some d)
    (hdate : env.startTime < d) :
    watchStep env T st =
      (Sum.inl (WatchOutcome.resolved (messageToMap msg).1 st.elapsedMs),
       [WCall.select, WCall.search, WCall.fetch id]) := by
  simp only [watchStep, if_neg (Nat.not_le.mpr hlt), hsel, hse, hlast,
    if_neg hskip, hf, hd, if_pos hdate, messageToMap]

/-! ## Claim about decoder totality -/

/-- C10: `messageToMap` is total — its error component is the source's
literal nil for every message — so the decode-error rejection branches
are unreachable: whenever a fetched message reaches the decode step,
`Read` returns the record with an empty error string, and the watcher
resolves with the record rather than rejecting. -/
theorem messageToMap_total_no_decode_error :
    (∀ msg, (messageToMap msg).2 = none) ∧
    (∀ env msg ids, env.selectRes = Except.ok () → env.searchRes = Except.ok ids →
      ids.length ≠ 0 → env.fetchRes = Except.ok (some msg) →
      ReadEmail true env = (some (messageToMap msg).1, "")) ∧
    (∀ env T st ids id msg d, st.elapsedMs < T →
      env.selectRes st.iteration = Except.ok () →
      env.searchRes st.iteration = Except.ok ids →
      ids.getLast? = some id → id ∉ st.skipped →
      env.fetchRes st.iteration = Except.ok (some msg) →
      msg.InternalDate = some d → env.startTime < d →
      watchStep env T st =
        (Sum.inl (WatchOutcome.resolved (messageToMap msg).1 st.elapsedMs),
         [WCall.select, WCall.search, WCall.fetch id])) := by
  refine ⟨fun msg => rfl, ?_, ?_⟩
  · intro env msg ids hsel hse hne hf
    simp only [ReadEmail, hsel, hse, hf, if_neg hne, messageToMap]
    rfl
  · intro env T st ids id msg d hlt hsel hse hlast hskip hf hd hdate
    exact watchStep_fresh env T st ids id msg d hlt hsel hse hlast hskip hf hd hdate

theorem messageToMap_total_no_decode_error_witness :
    (messageToMap ⟨none, none, none, none, 3⟩).2 = none ∧
    ReadEmail true ⟨Except.ok (), Except.ok [4],
        Except.ok (some ⟨none, none, none, none, 4⟩)⟩ =
      (some (messageToMap ⟨none, none, none, none, 4⟩).1, "") :=
  ⟨messageToMap_total_no_decode_error.1 ⟨none, none, none, none, 3⟩,
   messageToMap_total_no_decode_error.2.1
     ⟨Except.ok (), Except.ok [4], Except.ok (some ⟨none, none, none, none, 4⟩)⟩
     ⟨none, none, none, none, 4⟩ [4] rfl rfl (by decide) rfl⟩

/-- Exhaustive branch analysis of one watcher iteration. -/
lemma watchStep_branches (env : WatchEnv) (T : Nat) (st : WatchState) :
    (watchStep env T st =
        (Sum.inl (WatchOutcome.rejected (timeoutMsg T) st.elapsedMs), []) ∧
      T ≤ st.elapsedMs) ∨
    (∃ e, watchStep env T st =
        (Sum.inl (WatchOutcome.rejected e st.elapsedMs), [WCall.select]) ∧
      env.selectRes st.iteration = Except.error e) ∨
    (∃ e, watchStep env T st =
        (Sum.inl (WatchOutcome.rejected e st.elapsedMs), [WCall.select, WCall.search]) ∧
      env.searchRes st.iteration = Except.error e) ∨
    (watchStep env T st =
      (Sum.inr (sleepAdvance st st.skipped), [WCall.select, WCall.search])) ∨
    (∃ id, watchStep env T st =
      (Sum.inr (sleepAdvance st st.skipped),
       [WCall.select, WCall.search, WCall.fetch id])) ∨
    (∃ id, watchStep env T st =
        (Sum.inr (sleepAdvance st (id :: st.skipped)),
         [WCall.select, WCall.search, WCall.fetch id]) ∧
      id ∉ st.skipped) ∨
    (∃ id msg d, watchStep env T st =
        (Sum.inl (WatchOutcome.resolved (messageToMap msg).1 st.elapsedMs),
         [WCall.select, WCall.search, WCall.fetch id]) ∧
      env.fetchRes st.iteration = Except.ok (some msg) ∧
      msg.InternalDate = some d ∧ env.startTime < d) := by
  by_cases hg : T ≤ st.elapsedMs
  · exact Or.inl ⟨watchStep_timeout env T st hg, hg⟩
  · have hlt := Nat.lt_of_not_le hg
    cases hsel : env.selectRes st.iteration with
    | error e =>
      exact Or.inr (Or.inl ⟨e, watchStep_selectErr env T st e hlt hsel, rfl⟩)
    | ok u =>
      cases u
      cases hse : env.searchRes st.iteration with
      | error e =>
        exact Or.inr (Or.inr (Or.inl
          ⟨e, watchStep_searchErr env T st e hlt hsel hse, rfl⟩))
      | ok ids =>
        cases hlast : ids.getLast? with
        | none =>
          exact Or.inr (Or.inr (Or.inr (Or.inl
            (watchStep_emptyIds env T st ids hlt hsel hse hlast))))
        | some id =>
          by_cases hskip : id ∈ st.skipped
          · exact Or.inr (Or.inr (Or.inr (Or.inl
              (watchStep_skip env T st ids id hlt hsel hse hlast hskip))))
          · cases hf : env.fetchRes st.iteration with
            | error e =>
              exact Or.inr (Or.inr (Or.inr (Or.inr (Or.inl
                ⟨id, watchStep_fetchErr env T st ids id e hlt hsel hse hlast
                  hskip hf⟩))))
            | ok mo =>
              cases mo with
              | none =>
                exact Or.inr (Or.inr (Or.inr (Or.inr (Or.inr (Or.inl
                  ⟨id, watchStep_nilMsg env T st ids id hlt hsel hse hlast
                    hskip hf, hskip⟩)))))
              | some msg =>
                cases hd : msg.InternalDate with
                | none =>
                  exact Or.inr (Or.inr (Or.inr (Or.inr (Or.inr (Or.inl
                    ⟨id, watchStep_noDate env T st ids id msg hlt hsel hse
                      hlast hskip hf hd, hskip⟩)))))
                | some d =>
                  by_cases hdate : env.startTime < d
                  · exact Or.inr (Or.inr (Or.inr (Or.inr (Or.inr (Or.inr
                      ⟨id, msg, d, watchStep_fresh env T st ids id msg d hlt
                        hsel hse hlast hskip hf hd hdate, rfl, hd, hdate⟩)))))
                  · exact Or.inr (Or.inr (Or.inr (Or.inr (Or.inr (Or.inl
                      ⟨id, watchStep_stale env T st ids id msg d hlt hsel hse
                        hlast hskip hf hd hdate, hskip⟩)))))

/-- Continuation steps advance the clock and the iteration counter and
never remove ids from the skipped set. -/
lemma watchStep_inr_mono (env : WatchEnv) (T : Nat) (st st2 : WatchState)
    (tr : List WCall) (h : watchStep env T st = (Sum.inr st2, tr)) :
    st2.elapsedMs = st.elapsedMs + pollIntervalMs ∧
    st2.iteration = st.iteration + 1 ∧
    ∀ x ∈ st.skipped, x ∈ st2.skipped := by
  rcases watchStep_branches env T st with ⟨heq, _⟩ | ⟨e, heq, _⟩ | ⟨e, heq, _⟩ |
    heq | ⟨id, heq⟩ | ⟨id, heq, _⟩ | ⟨id, msg, d, heq, _, _, _⟩ <;>
    rw [heq] at h
  · simp at h
  · simp at h
  · simp at h
  · simp only [Prod.mk.injEq, Sum.inr.injEq] at h
    rw [← h.1]
    exact ⟨rfl, rfl, fun x hx => hx⟩
  · simp only [Prod.mk.injEq, Sum.inr.injEq] at h
    rw [← h.1]
    exact ⟨rfl, rfl, fun x hx => hx⟩
  · simp only [Prod.mk.injEq, Sum.inr.injEq] at h
    rw [← h.1]
    exact ⟨rfl, rfl, fun x hx => List.mem_cons_of_mem _ hx⟩
  · simp at h

/-- Any outcome a watch run ever produces is a timeout rejection, a
select-error rejection, a search-error rejection, or a resolution with
the decoded record of a fetched message whose internal date is strictly
after the session start. -/
lemma watchRun_outcome_origin (env : WatchEnv) (T : Nat) :
    ∀ (fuel : Nat) (st : WatchState) (out : WatchOutcome),
      (watchRun env T fuel st).1 = some out →
      (∃ el, out = WatchOutcome.rejected (timeoutMsg T) el) ∨
      (∃ i e el, out = WatchOutcome.rejected e el ∧
        env.selectRes i = Except.error e) ∨
      (∃ i e el, out = WatchOutcome.rejected e el ∧
        env.searchRes i = Except.error e) ∨
      (∃ i msg d el, out = WatchOutcome.resolved (messageToMap msg).1 el ∧
        env.fetchRes i = Except.ok (some msg) ∧ msg.InternalDate = some d ∧
        env.startTime < d) := by
  intro fuel
  induction fuel with
  | zero =>
    intro st out h
    simp [watchRun] at h
  | succ n ih =>
    intro st out h
    rcases watchStep_branches env T st with ⟨heq, _⟩ | ⟨e, heq, hsel⟩ |
      ⟨e, heq, hse⟩ | heq | ⟨id, heq⟩ | ⟨id, heq, _⟩ |
      ⟨id, msg, d, heq, hf, hd, hdate⟩ <;>
      simp only [watchRun, heq, Option.some.injEq] at h
    · exact Or.inl ⟨st.elapsedMs, h.symm⟩
    · exact Or.inr (Or.inl ⟨st.iteration, e, st.elapsedMs, h.symm, hsel⟩)
    · exact Or.inr (Or.inr (Or.inl ⟨st.iteration, e, st.elapsedMs, h.symm, hse⟩))
    · exact ih _ out h
    · exact ih _ out h
    · exact ih _ out h
    · exact Or.inr (Or.inr (Or.inr
        ⟨st.iteration, msg, d, st.elapsedMs, h.symm, hf, hd, hdate⟩))

lemma countFetch_append (a b : List WCall) :
    countFetch (a ++ b) = countFetch a + countFetch b := by
  simp [countFetch, List.filter_append]

/-- Once the highest id of every search response is in the skipped set,
no fetch is ever issued again. -/
lemma watchRun_no_fetch_when_skipped (env : WatchEnv) (T : Nat) (id : Nat)
    (hsel : ∀ i, env.selectRes i = Except.ok ())
    (hse : ∀ i, env.searchRes i = Except.ok [id]) :
    ∀ (fuel : Nat) (st : WatchState), id ∈ st.skipped →
      countFetch (watchRun env T fuel st).2 = 0 := by
  intro fuel
  induction fuel with
  | zero =>
    intro st _
    simp [watchRun, countFetch]
  | succ n ih =>
    intro st hmem
    by_cases hg : T ≤ st.elapsedMs
    · simp [watchRun, watchStep_timeout env T st hg, countFetch]
    · have hlt := Nat.lt_of_not_le hg
      have hstep := watchStep_skip env T st [id] id hlt (hsel _) (hse _) rfl hmem
      simp only [watchRun, hstep, countFetch_append]
      rw [ih (sleepAdvance st st.skipped) hmem]
      rfl

/-- Under a server that always answers the same id with the same stale
message, a whole watch run issues at most one fetch. -/
lemma watchRun_fetch_at_most_once (env : WatchEnv) (T : Nat) (id : Nat)
    (msg : ImapMessage) (d : Int)
    (hsel : ∀ i, env.selectRes i = Except.ok ())
    (hse : ∀ i, env.searchRes i = Except.ok [id])
    (hf : ∀ i, env.fetchRes i = Except.ok (some msg))
    (hd : msg.InternalDate = some d)
    (hstale : ¬ env.startTime < d) :
    ∀ (fuel : Nat) (st : WatchState), countFetch (watchRun env T fuel st).2 ≤ 1 := by
  intro fuel st
  cases fuel with
  | zero => simp [watchRun, countFetch]
  | succ n =>
    by_cases hg : T ≤ st.elapsedMs
    · simp [watchRun, watchStep_timeout env T st hg, countFetch]
    · have hlt := Nat.lt_of_not_le hg
      by_cases hmem : id ∈ st.skipped
      · rw [watchRun_no_fetch_when_skipped env T id hsel hse (n + 1) st hmem]
        exact Nat.zero_le 1
      · have hstep := watchStep_stale env T st [id] id msg d hlt (hsel _)
          (hse _) rfl hmem (hf _) hd hstale
        simp only [watchRun, hstep, countFetch_append]
        rw [watchRun_no_fetch_when_skipped env T id hsel hse n
          (sleepAdvance st (id :: st.skipped)) (List.mem_cons_self _ _)]
        simp [countFetch, List.filter]

/-- Under a server whose searches always return no ids, a run with enough
fuel ends in the timeout rejection; the rejection time is at least the
configured timeout, and when the run starts before the deadline it is
less than one poll interval past it. -/
lemma watchRun_empty_search (env : WatchEnv) (T : Nat)
    (hsel : ∀ i, env.selectRes i = Except.ok ())
    (hse : ∀ i, env.searchRes i = Except.ok []) :
    ∀ (fuel : Nat) (st : WatchState), T ≤ st.elapsedMs + pollIntervalMs * fuel →
      ∃ e, (watchRun env T (fuel + 1) st).1 =
          some (WatchOutcome.rejected (timeoutMsg T) e) ∧
        T ≤ e ∧ st.elapsedMs ≤ e ∧
        (T ≤ st.elapsedMs → e = st.elapsedMs) ∧
        (st.elapsedMs < T → e < T + pollIntervalMs) := by
  intro fuel
  induction fuel with
  | zero =>
    intro st hb
    rw [Nat.mul_zero, Nat.add_zero] at hb
    exact ⟨st.elapsedMs,
      by simp [watchRun, watchStep_timeout env T st hb],
      hb, Nat.le_refl _, fun _ => rfl,
      fun hlt => absurd hb (Nat.not_le.mpr hlt)⟩
  | succ n ih =>
    intro st hb
    by_cases hg : T ≤ st.elapsedMs
    · exact ⟨st.elapsedMs,
        by simp [watchRun, watchStep_timeout env T st hg],
        hg, Nat.le_refl _, fun _ => rfl,
        fun hlt => absurd hg (Nat.not_le.mpr hlt)⟩
    · have hlt := Nat.lt_of_not_le hg
      have hstep := watchStep_emptyIds env T st [] hlt (hsel _) (hse _) rfl
      have hb2 : T ≤ (sleepAdvance st st.skipped).elapsedMs + pollIntervalMs * n := by
        simp only [sleepAdvance, pollIntervalMs] at hb ⊢
        omega
      rcases ih (sleepAdvance st st.skipped) hb2 with ⟨e, he, h1, h2, h3, h4⟩
      refine ⟨e, ?_, h1, ?_, fun h => absurd h hg, fun _ => ?_⟩
      · simp only [watchRun, hstep]
        exact he
      · simp only [sleepAdvance] at h2
        omega
      · by_cases hc : (sleepAdvance st st.skipped).elapsedMs < T
        · exact h4 hc
        · have h5 := h3 (Nat.not_lt.mp hc)
          simp only [sleepAdvance, pollIntervalMs] at h5 ⊢
          omega

/-! ## Claims about the watcher -/

/-- C2: the timeout guard sits at the top of every iteration — whatever
the environment, a state at or past the deadline rejects immediately
with the timeout message carrying the configured duration — and under a
server always returning zero search results the watch rejects with that
message at an elapsed time at least T, at least T minus one poll
interval, and less than T plus one poll interval. -/
theorem waitNewEmail_timeout_guard (env : WatchEnv) (T : Nat)
    (hsel : ∀ i, env.selectRes i = Except.ok ())
    (hse : ∀ i, env.searchRes i = Except.ok [])
    (hT : 0 < T) :
    (∀ (env2 : WatchEnv) (T2 : Nat) (st : WatchState), T2 ≤ st.elapsedMs →
      watchStep env2 T2 st =
        (Sum.inl (WatchOutcome.rejected (timeoutMsg T2) st.elapsedMs), [])) ∧
    (∃ e, (watchRun env T (T / pollIntervalMs + 2) initWatchState).1 =
        some (WatchOutcome.rejected (timeoutMsg T) e) ∧
      T ≤ e ∧ T - pollIntervalMs ≤ e ∧ e < T + pollIntervalMs) := by
  refine ⟨fun env2 T2 st h => watchStep_timeout env2 T2 st h, ?_⟩
  have hfuel : T ≤ initWatchState.elapsedMs +
      pollIntervalMs * (T / pollIntervalMs + 1) := by
    have h1 := Nat.div_add_mod T pollIntervalMs
    have h2 : T % pollIntervalMs < pollIntervalMs :=
      Nat.mod_lt _ (by decide)
    simp only [initWatchState, pollIntervalMs] at h1 h2 ⊢
    omega
  rcases watchRun_empty_search env T hsel hse (T / pollIntervalMs + 1)
    initWatchState hfuel with ⟨e, he, h1, _, _, h4⟩
  have h5 : e < T + pollIntervalMs := h4 hT
  exact ⟨e, he, h1, Nat.le_trans (Nat.sub_le _ _) h1, h5⟩

theorem waitNewEmail_timeout_guard_witness :
    ∃ e, (watchRun
        ⟨0, fun _ => Except.ok (), fun _ => Except.ok [], fun _ => Except.ok none⟩
        5000 (5000 / pollIntervalMs + 2) initWatchState).1 =
      some (WatchOutcome.rejected (timeoutMsg 5000) e) ∧
      5000 ≤ e ∧ 5000 - pollIntervalMs ≤ e ∧ e < 5000 + pollIntervalMs :=
  (waitNewEmail_timeout_guard
    ⟨0, fun _ => Except.ok (), fun _ => Except.ok [], fun _ => Except.ok none⟩
    5000 (fun _ => rfl) (fun _ => rfl) (by decide)).2

/-- C3: before the deadline, a mailbox-select failure or a search failure
terminates the watch by rejecting with that very error, while a fetch
failure only sleeps into the next iteration with the state otherwise
unchanged; and every outcome a run can produce is a resolution, the
timeout rejection, or a rejection with a select or search error — a
fetch error is never surfaced. -/
theorem waitNewEmail_fatal_and_soft_errors :
    (∀ (env : WatchEnv) (T : Nat) (st : WatchState) (e : String),
      st.elapsedMs < T →
      env.selectRes st.iteration = Except.error e →
      watchStep env T st =
        (Sum.inl (WatchOutcome.rejected e st.elapsedMs), [WCall.select])) ∧
    (∀ (env : WatchEnv) (T : Nat) (st : WatchState) (e : String),
      st.elapsedMs < T →
      env.selectRes st.iteration = Except.ok () →
      env.searchRes st.iteration = Except.error e →
      watchStep env T st =
        (Sum.inl (WatchOutcome.rejected e st.elapsedMs),
         [WCall.select, WCall.search])) ∧
    (∀ (env : WatchEnv) (T : Nat) (st : WatchState) (e : String)
      (ids : List Nat) (id : Nat),
      st.elapsedMs < T →
      env.selectRes st.iteration = Except.ok () →
      env.searchRes st.iteration = Except.ok ids →
      ids.getLast? = some id → id ∉ st.skipped →
      env.fetchRes st.iteration = Except.error e →
      watchStep env T st =
        (Sum.inr (sleepAdvance st st.skipped),
         [WCall.select, WCall.search, WCall.fetch id])) ∧
    (∀ (env : WatchEnv) (T : Nat) (fuel : Nat) (st : WatchState)
      (out : WatchOutcome),
      (watchRun env T fuel st).1 = some out →
      (∃ r el, out = WatchOutcome.resolved r el) ∨
      (∃ el, out = WatchOutcome.rejected (timeoutMsg T) el) ∨
      (∃ i e el, out = WatchOutcome.rejected e el ∧
        (env.selectRes i = Except.error e ∨ env.searchRes i = Except.error e))) := by
  refine ⟨watchStep_selectErr, watchStep_searchErr, ?_, ?_⟩
  · intro env T st e ids id hlt hsel hse hlast hskip hf
    exact watchStep_fetchErr env T st ids id e hlt hsel hse hlast hskip hf
  · intro env T fuel st out h
    rcases watchRun_outcome_origin env T fuel st out h with
      ⟨el, ho⟩ | ⟨i, e, el, ho, hsel⟩ | ⟨i, e, el, ho, hse⟩ | ⟨i, msg, d, el, ho, _, _, _⟩
    · exact Or.inr (Or.inl ⟨el, ho⟩)
    · exact Or.inr (Or.inr ⟨i, e, el, ho, Or.inl hsel⟩)
    · exact Or.inr (Or.inr ⟨i, e, el, ho, Or.inr hse⟩)
    · exact Or.inl ⟨(messageToMap msg).1, el, ho⟩

theorem waitNewEmail_fatal_and_soft_errors_witness :
    watchStep ⟨0, fun _ => Except.ok (), fun _ => Except.ok [9],
        fun _ => Except.error "fetch failed"⟩ 9000 initWatchState =
      (Sum.inr (sleepAdvance initWatchState initWatchState.skipped),
       [WCall.select, WCall.search, WCall.fetch 9]) ∧
    watchStep ⟨0, fun _ => Except.error "select failed", fun _ => Except.ok [],
        fun _ => Except.ok none⟩ 9000 initWatchState =
      (Sum.inl (WatchOutcome.rejected "select failed" initWatchState.elapsedMs),
       [WCall.select]) :=
  ⟨waitNewEmail_fatal_and_soft_errors.2.2.1
     ⟨0, fun _ => Except.ok (), fun _ => Except.ok [9],
      fun _ => Except.error "fetch failed"⟩ 9000 initWatchState "fetch failed"
     [9] 9 (by decide) rfl rfl rfl (by decide) rfl,
   waitNewEmail_fatal_and_soft_errors.1
     ⟨0, fun _ => Except.error "select failed", fun _ => Except.ok [],
      fun _ => Except.ok none⟩ 9000 initWatchState "select failed"
     (by decide) rfl⟩

/-- C1: a fetch of the highest id that yields no message, a message with
no internal date, or a message whose internal date is not strictly after
the session start adds that id to the skipped set and sleeps; when the
highest id is already skipped, the iteration sleeps without issuing any
fetch; continuation steps never remove ids from the skipped set; under a
server that repeatedly answers the same id with the same stale message
the whole watch fetches at most once; and the watch resolves only with
the decoded record of a message whose internal date is strictly after
the session start. -/
theorem waitNewEmail_skipset_dedup :
    (∀ (env : WatchEnv) (T : Nat) (st : WatchState) (ids : List Nat) (id : Nat),
      st.elapsedMs < T →
      env.selectRes st.iteration = Except.ok () →
      env.searchRes st.iteration = Except.ok ids →
      ids.getLast? = some id → id ∉ st.skipped →
      (env.fetchRes st.iteration = Except.ok none ∨
       (∃ msg, env.fetchRes st.iteration = Except.ok (some msg) ∧
         (msg.InternalDate = none ∨
          ∃ d, msg.InternalDate = some d ∧ ¬ env.startTime < d))) →
      watchStep env T st =
        (Sum.inr (sleepAdvance st (id :: st.skipped)),
         [WCall.select, WCall.search, WCall.fetch id])) ∧
    (∀ (env : WatchEnv) (T : Nat) (st : WatchState) (ids : List Nat) (id : Nat),
      st.elapsedMs < T →
      env.selectRes st.iteration = Except.ok () →
      env.searchRes st.iteration = Except.ok ids →
      ids.getLast? = some id → id ∈ st.skipped →
      watchStep env T st =
        (Sum.inr (sleepAdvance st st.skipped), [WCall.select, WCall.search])) ∧
    (∀ (env : WatchEnv) (T : Nat) (st st2 : WatchState) (tr : List WCall),
      watchStep env T st = (Sum.inr st2, tr) →
      ∀ x ∈ st.skipped, x ∈ st2.skipped) ∧
    (∀ (env : WatchEnv) (T : Nat) (id : Nat) (msg : ImapMessage) (d : Int)
      (fuel : Nat),
      (∀ i, env.selectRes i = Except.ok ()) →
      (∀ i, env.searchRes i = Except.ok [id]) →
      (∀ i, env.fetchRes i = Except.ok (some msg)) →
      msg.InternalDate = some d → ¬ env.startTime < d →
      countFetch (watchRun env T fuel initWatchState).2 ≤ 1) ∧
    (∀ (env : WatchEnv) (T : Nat) (fuel : Nat) (st : WatchState)
      (r : List (String × JVal)) (el : Nat),
      (watchRun env T fuel st).1 = some (WatchOutcome.resolved r el) →
      ∃ i msg d, env.fetchRes i = Except.ok (some msg) ∧
        msg.InternalDate = some d ∧ env.startTime < d ∧
        r = (messageToMap msg).1) := by
  refine ⟨?_, watchStep_skip, ?_, ?_, ?_⟩
  · intro env T st ids id hlt hsel hse hlast hskip hcase
    rcases hcase with hf | ⟨msg, hf, hnil | ⟨d, hd, hdate⟩⟩
    · exact watchStep_nilMsg env T st ids id hlt hsel hse hlast hskip hf
    · exact watchStep_noDate env T st ids id msg hlt hsel hse hlast hskip hf hnil
    · exact watchStep_stale env T st ids id msg d hlt hsel hse hlast hskip hf hd hdate
  · intro env T st st2 tr h
    exact (watchStep_inr_mono env T st st2 tr h).2.2
  · intro env T id msg d fuel hsel hse hf hd hdate
    exact watchRun_fetch_at_most_once env T id msg d hsel hse hf hd hdate
      fuel initWatchState
  · intro env T fuel st r el h
    rcases watchRun_outcome_origin env T fuel st _ h with
      ⟨el2, ho⟩ | ⟨i, e, el2, ho, _⟩ | ⟨i, e, el2, ho, _⟩ |
      ⟨i, msg, d, el2, ho, hfm, hdm, hdate⟩
    · exact absurd ho (by simp)
    · exact absurd ho (by simp)
    · exact absurd ho (by simp)
    · rw [WatchOutcome.resolved.injEq] at ho
      exact ⟨i, msg, d, hfm, hdm, hdate, ho.1⟩

theorem waitNewEmail_skipset_dedup_witness :
    watchStep ⟨100, fun _ => Except.ok (), fun _ => Except.ok [3, 7],
        fun _ => Except.ok (some ⟨none, some 50, none, none, 7⟩)⟩ 8000
        initWatchState =
      (Sum.inr (sleepAdvance initWatchState (7 :: initWatchState.skipped)),
       [WCall.select, WCall.search, WCall.fetch 7]) ∧
    countFetch (watchRun ⟨100, fun _ => Except.ok (), fun _ => Except.ok [7],
        fun _ => Except.ok (some ⟨none, some 50, none, none, 7⟩)⟩ 8000 6
        initWatchState).2 ≤ 1 :=
  ⟨waitNewEmail_skipset_dedup.1
     ⟨100, fun _ => Except.ok (), fun _ => Except.ok [3, 7],
      fun _ => Except.ok (some ⟨none, some 50, none, none, 7⟩)⟩ 8000
     initWatchState [3, 7] 7 (by decide) rfl rfl rfl (by decide)
     (Or.inr ⟨⟨none, some 50, none, none, 7⟩, rfl, Or.inr ⟨50, rfl, by decide⟩⟩),
   waitNewEmail_skipset_dedup.2.2.2.1
     ⟨100, fun _ => Except.ok (), fun _ => Except.ok [7],
      fun _ => Except.ok (some ⟨none, some 50, none, none, 7⟩)⟩ 8000 7
     ⟨none, some 50, none, none, 7⟩ 50 6 (fun _ => rfl) (fun _ => rfl)
     (fun _ => rfl) rfl (by decide)⟩
